import Mathlib

/-!
# StopWatch state machine (`sample_state_machine.cpp`)

A shallow embedding of the hierarchical stopwatch machine: the outer state
`Active` (which owns `elapsed_time_`) and its two inner states `Running`
(which owns `start_time_`) and `Stopped`, driven by the events `EvStartstop`
and `EvReset`.

The state objects of the C++ program are created and destroyed by the
statechart library as transitions are taken; entry actions are constructors and
exit actions are destructors.  The embedding keeps one optional slot per state
class (the object is alive or not) and spells every transition out as the
sequence of destructor and constructor calls the library performs, innermost
state first on exit and outermost state first on entry.

`std::time(0)` is read at most once during a dispatch (in `Running()` or in
`~Running()`), so each dispatch takes the clock reading as an argument.
`std::time_t` readings are whole seconds (`Int`); the `double` accumulator is
taken with exact arithmetic (`ℚ`), which agrees with `double` as long as the
magnitudes stay below `2^53`.
-/

namespace StopWatchSM

/-! ## Events (lines 25-26) -/

/-- The two events of the machine: `EvStartstop` and `EvReset`. -/
inductive Event where
  | EvStartstop
  | EvReset
  deriving DecidableEq, Repr

/-! ## State classes -/

/-- State object of the outer state `Active` (lines 38-48): it owns the
accumulated `elapsed_time_`. -/
structure Active where
  elapsed_time_ : ℚ
  deriving DecidableEq, Repr

/-- State object of the inner state `Running` (lines 51-65): it owns the clock
reading `start_time_` taken on entry. -/
structure Running where
  start_time_ : Int
  deriving DecidableEq, Repr

/-- State object of the inner state `Stopped` (lines 68-71): no data. -/
structure Stopped where
  deriving DecidableEq, Repr

/-- The call `std::difftime(t1, t0)`: the seconds from `t0` to `t1`, as a
`double`. -/
def difftime (t1 t0 : Int) : ℚ := ((t1 - t0 : Int) : ℚ)

/-- Constructor `Active() : elapsed_time_(0.0) {}` (line 40). -/
def Active.construct : Active := { elapsed_time_ := 0 }

/-- Accessor `double ElapsedTime() const` (line 41). -/
def Active.ElapsedTime (a : Active) : ℚ := a.elapsed_time_

/-- Constructor `Running() : start_time_(std::time(0)) {}` (line 56); `now` is
the value `std::time(0)` returns. -/
def Running.construct (now : Int) : Running := { start_time_ := now }

/-- Destructor `~Running()` (lines 58-61), as its effect on the context
`Active`: `ElapsedTime() += std::difftime(std::time(0), start_time_)`. -/
def Running.destruct (r : Running) (now : Int) (ctx : Active) : Active :=
  { ctx with elapsed_time_ := ctx.elapsed_time_ + difftime now r.start_time_ }

/-! ## The machine -/

/-- The machine `StopWatch` (line 32): which state objects are currently alive.
A default-constructed machine (`StopWatch my_watch;`) has none. -/
structure StopWatch where
  active : Option Active
  running : Option Running
  stopped : Option Stopped
  deriving DecidableEq, Repr

/-- The machine right after `StopWatch my_watch;` (line 74), before
`initiate()`. -/
def StopWatch.fresh : StopWatch := { active := none, running := none, stopped := none }

/-- Library query `terminated()`: no outermost state is active. -/
def StopWatch.terminated (m : StopWatch) : Bool := m.active.isNone

/-- Read `ElapsedTime()` of the active `Active` state, if there is one. -/
def StopWatch.elapsedTime (m : StopWatch) : Option ℚ := m.active.map Active.ElapsedTime

/-! ### Exit and entry of single states -/

/-- Exit `Running` if it is active: run `~Running()` against the context
`Active`, then drop the object. -/
def exitRunning (m : StopWatch) (now : Int) : StopWatch :=
  match m.running with
  | none => m
  | some r => { m with active := m.active.map (r.destruct now), running := none }

/-- Exit `Stopped` if it is active (its destructor does nothing). -/
def exitStopped (m : StopWatch) : StopWatch := { m with stopped := none }

/-- Exit `Active`: the active inner state is exited first, then the `Active`
object itself is destroyed. -/
def exitActive (m : StopWatch) (now : Int) : StopWatch :=
  { exitStopped (exitRunning m now) with active := none }

/-- Enter `Stopped`: construct the state object. -/
def enterStopped (m : StopWatch) : StopWatch := { m with stopped := some {} }

/-- Enter `Running`: construct the state object, which reads the clock. -/
def enterRunning (m : StopWatch) (now : Int) : StopWatch :=
  { m with running := some (Running.construct now) }

/-- Enter `Active`: construct the state object, then enter its inner initial
state `Stopped` (third template argument on line 38). -/
def enterActive (m : StopWatch) : StopWatch :=
  enterStopped { m with active := some Active.construct }

/-! ### Reactions -/

/-- Reactions of `Running` (line 53): `sc::transition<EvStartstop, Stopped>`.
`none` means the event is forwarded to the context. -/
def Running.react (m : StopWatch) (ev : Event) (now : Int) : Option StopWatch :=
  match ev with
  | .EvStartstop => some (enterStopped (exitRunning m now))
  | .EvReset => none

/-- Reactions of `Stopped` (line 70): `sc::transition<EvStartstop, Running>`.
`none` means the event is forwarded to the context. -/
def Stopped.react (m : StopWatch) (ev : Event) (now : Int) : Option StopWatch :=
  match ev with
  | .EvStartstop => some (enterRunning (exitStopped m) now)
  | .EvReset => none

/-- Reactions of `Active` (line 45): `sc::transition<EvReset, Active>`, a
transition of the state to itself: `Active` is exited (inner state first) and
entered again.  `none` means the event is forwarded to the machine. -/
def Active.react (m : StopWatch) (ev : Event) (now : Int) : Option StopWatch :=
  match ev with
  | .EvReset => some (enterActive (exitActive m now))
  | .EvStartstop => none

/-- Reaction of the innermost active state, if any. -/
def innerReact (m : StopWatch) (ev : Event) (now : Int) : Option StopWatch :=
  if m.running.isSome then Running.react m ev now
  else if m.stopped.isSome then Stopped.react m ev now
  else none

/-- Reaction search of the library: the innermost active state is asked first;
an event it does not react to goes to its context `Active`.  The result is
`none` when no active state reacts. -/
def react (m : StopWatch) (ev : Event) (now : Int) : Option StopWatch :=
  match innerReact m ev now with
  | some m1 => some m1
  | none => if m.active.isSome then Active.react m ev now else none

/-- Library call `process_event(ev)`: perform the reaction found; an event no
active state reacts to is dropped (the default `unhandled_event` does nothing). -/
def process_event (m : StopWatch) (ev : Event) (now : Int) : StopWatch :=
  match react m ev now with
  | some m1 => m1
  | none => m

/-- Library call `terminate()`: exit every active state, innermost first. -/
def terminate (m : StopWatch) (now : Int) : StopWatch := exitActive m now

/-- Library call `initiate()`: terminate whatever is active, then enter the
initial state `Active` (second template argument on line 32). -/
def initiate (m : StopWatch) (now : Int) : StopWatch := enterActive (terminate m now)

/-- Dispatch a sequence of events, each with the clock reading of its
dispatch, from left to right. -/
def run (m : StopWatch) (evs : List (Event × Int)) : StopWatch :=
  evs.foldl (fun s e => process_event s e.1 e.2) m

/-- The machine after `StopWatch my_watch; my_watch.initiate();` followed by the
dispatches `evs`; `t0` is the clock at `initiate()`. -/
def afterStart (t0 : Int) (evs : List (Event × Int)) : StopWatch :=
  run (initiate StopWatch.fresh t0) evs

/-- The configuration `Active`/`Stopped` with the given accumulated time. -/
def stoppedWith (e : ℚ) : StopWatch :=
  { active := some { elapsed_time_ := e }, running := none, stopped := some {} }

/-- The configuration `Active`/`Running` with the given accumulated time and
start reading. -/
def runningWith (e : ℚ) (s : Int) : StopWatch :=
  { active := some { elapsed_time_ := e }, running := some { start_time_ := s }, stopped := none }

/-- Dispatch `EvStartstop` once per clock reading of `ts`, with no `EvReset`
in between. -/
def toggles (m : StopWatch) (ts : List Int) : StopWatch :=
  run m (ts.map fun t => (Event.EvStartstop, t))

/-- The clock readings that delimit the `Running` intervals when `EvStartstop`
is dispatched at the readings `ts` from `m`: entry and exit readings alternate,
starting with `start_time_` of the interval in progress when `m` is in
`Running`, and with the first reading of `ts` otherwise. -/
def intervalReadings (m : StopWatch) (ts : List Int) : List Int :=
  match m.running with
  | some r => r.start_time_ :: ts
  | none => ts

/-- Sum of the durations (exit reading minus entry reading) of the first `k`
intervals delimited by the alternating readings `rs`. -/
def intervalSum (rs : List Int) (k : Nat) : ℚ :=
  ∑ i ∈ Finset.range k, ((rs.getD (2 * i + 1) 0 - rs.getD (2 * i) 0 : Int) : ℚ)

/-- The events dispatched since the most recent `EvReset`, or all of them when
there was no `EvReset`. -/
def sinceLastReset (evs : List (Event × Int)) : List (Event × Int) :=
  (evs.reverse.takeWhile fun x => x.1 != Event.EvReset).reverse

/-- Number of `EvStartstop` events dispatched since the most recent `EvReset`
(since `initiate()` when there was none). -/
def togglesSinceReset (evs : List (Event × Int)) : Nat :=
  (sinceLastReset evs).countP fun x => x.1 == Event.EvStartstop

/-! ## The demo driver -/

/-- The driver `main` (lines 73-81): construct the machine, `initiate()`, three
`EvStartstop`, one `EvReset`, `return 0`.  The arguments are the clock readings
at the five calls; the result is the machine after each call, in order, and the
exit status. -/
def main (t0 t1 t2 t3 t4 : Int) : List StopWatch × Int :=
  let my_watch := StopWatch.fresh
  let w0 := initiate my_watch t0
  let w1 := process_event w0 .EvStartstop t1
  let w2 := process_event w1 .EvStartstop t2
  let w3 := process_event w2 .EvStartstop t3
  let w4 := process_event w3 .EvReset t4
  ([w0, w1, w2, w3, w4], 0)

/-! ## The flat transition table of the design notes

The design notes of the specification describe the machine without a state
hierarchy: a tag for the inner state, one shared record holding
`elapsed_time`, and a table keyed by (state, event) whose `Reset` entry matches
on the event whatever the tag is and runs no exit action. -/

/-- Tag of the flat machine: `Running` (with the start reading captured on
entry) or `Stopped`. -/
inductive FlatState where
  | Running (start_time : Int)
  | Stopped
  deriving DecidableEq, Repr

/-- The flat machine: the state tag and the shared `elapsed_time`. -/
structure FlatWatch where
  state : FlatState
  elapsed_time : ℚ
  deriving DecidableEq, Repr

/-- Initial configuration of the flat machine: `Stopped`, `elapsed_time` 0. -/
def FlatWatch.start : FlatWatch := { state := .Stopped, elapsed_time := 0 }

/-- The flat transition table: `Stopped` on `EvStartstop` enters `Running` and
captures the reading; `Running` on `EvStartstop` goes to `Stopped` and adds
`now - start_time`; `EvReset` maps either tag to `Stopped` with `elapsed_time`
0 and runs no exit action. -/
def FlatWatch.dispatch (w : FlatWatch) (ev : Event) (now : Int) : FlatWatch :=
  match ev, w.state with
  | .EvStartstop, .Stopped => { state := .Running now, elapsed_time := w.elapsed_time }
  | .EvStartstop, .Running s =>
      { state := .Stopped, elapsed_time := w.elapsed_time + ((now - s : Int) : ℚ) }
  | .EvReset, _ => { state := .Stopped, elapsed_time := 0 }

/-- Dispatch a sequence of events on the flat machine, from left to right. -/
def FlatWatch.run (w : FlatWatch) (evs : List (Event × Int)) : FlatWatch :=
  evs.foldl (fun s e => s.dispatch e.1 e.2) w

/-- Is the flat machine tagged `Running`? -/
def FlatWatch.isRunning (w : FlatWatch) : Bool :=
  match w.state with
  | .Running _ => true
  | .Stopped => false

/-- The configuration of the hierarchical machine that a flat configuration
stands for. -/
def FlatWatch.toStopWatch (w : FlatWatch) : StopWatch :=
  match w.state with
  | .Running s => runningWith w.elapsed_time s
  | .Stopped => stoppedWith w.elapsed_time

/-! ## Single dispatches on the two well-formed configurations -/

theorem run_nil (m : StopWatch) : run m [] = m := rfl

theorem run_cons (m : StopWatch) (x : Event × Int) (evs : List (Event × Int)) :
    run m (x :: evs) = run (process_event m x.1 x.2) evs := rfl

theorem run_append (m : StopWatch) (xs ys : List (Event × Int)) :
    run m (xs ++ ys) = run (run m xs) ys := by
  simp [run, List.foldl_append]

theorem run_snoc (m : StopWatch) (xs : List (Event × Int)) (x : Event × Int) :
    run m (xs ++ [x]) = process_event (run m xs) x.1 x.2 := by
  rw [run_append]; rfl

theorem afterStart_snoc (t0 : Int) (xs : List (Event × Int)) (x : Event × Int) :
    afterStart t0 (xs ++ [x]) = process_event (afterStart t0 xs) x.1 x.2 :=
  run_snoc _ xs x

theorem initiate_fresh (t0 : Int) : initiate StopWatch.fresh t0 = stoppedWith 0 := rfl

theorem afterStart_nil (t0 : Int) : afterStart t0 [] = stoppedWith 0 := rfl

theorem toggle_stoppedWith (e : ℚ) (t : Int) :
    process_event (stoppedWith e) .EvStartstop t = runningWith e t := rfl

theorem toggle_runningWith (e : ℚ) (s t : Int) :
    process_event (runningWith e s) .EvStartstop t
      = stoppedWith (e + ((t - s : Int) : ℚ)) := rfl

theorem reset_stoppedWith (e : ℚ) (t : Int) :
    process_event (stoppedWith e) .EvReset t = stoppedWith 0 := rfl

theorem reset_runningWith (e : ℚ) (s t : Int) :
    process_event (runningWith e s) .EvReset t = stoppedWith 0 := rfl

/-- Every state reached after `initiate()` is `Active`/`Stopped` or
`Active`/`Running`; in the second case the last dispatch was an `EvStartstop`
taken in `Stopped`, and `start_time_` is the clock reading of that dispatch. -/
theorem afterStart_cases (t0 : Int) (evs : List (Event × Int)) :
    (∃ e, afterStart t0 evs = stoppedWith e) ∨
    (∃ e s pre, afterStart t0 evs = runningWith e s ∧
      evs = pre ++ [(Event.EvStartstop, s)] ∧ afterStart t0 pre = stoppedWith e) := by
  induction evs using List.reverseRecOn with
  | nil => exact Or.inl ⟨0, rfl⟩
  | append_singleton xs x ih =>
    obtain ⟨ev, t⟩ := x
    rw [afterStart_snoc]
    rcases ih with ⟨e, h⟩ | ⟨e, s, pre, h, -, -⟩
    · cases ev
      · exact Or.inr ⟨e, t, xs, by rw [h]; rfl, rfl, h⟩
      · exact Or.inl ⟨0, by rw [h]; rfl⟩
    · cases ev
      · exact Or.inl ⟨_, by rw [h]; rfl⟩
      · exact Or.inl ⟨0, by rw [h]; rfl⟩

/-! ## Entering the machine and resetting it -/

/-- C8: `initiate()` on a freshly constructed machine yields the initial
configuration: `Active` is active with `elapsed_time_` equal to 0, the inner
state `Stopped` is active and `Running` is not. -/
theorem C8_initiate_fresh_is_stopped_zero (t0 : Int) :
    initiate StopWatch.fresh t0
        = { active := some { elapsed_time_ := 0 }, running := none, stopped := some {} } ∧
      (initiate StopWatch.fresh t0).elapsedTime = some 0 ∧
      (initiate StopWatch.fresh t0).stopped.isSome = true ∧
      (initiate StopWatch.fresh t0).running.isSome = false ∧
      (initiate StopWatch.fresh t0).terminated = false ∧
      StopWatch.fresh.terminated = true :=
  ⟨rfl, rfl, rfl, rfl, rfl, rfl⟩

/-- C1: in every state reached after `initiate()`, and more generally in
`Active`/`Running` and `Active`/`Stopped` with any `elapsed_time_` and any
`start_time_`, dispatching `EvReset` at any clock reading yields
`Active`/`Stopped` with `elapsed_time_` equal to 0. -/
theorem C1_reset_yields_stopped_zero :
    (∀ (t0 : Int) (evs : List (Event × Int)) (now : Int),
      process_event (afterStart t0 evs) .EvReset now
          = { active := some { elapsed_time_ := 0 }, running := none, stopped := some {} } ∧
        (process_event (afterStart t0 evs) .EvReset now).elapsedTime = some 0) ∧
    (∀ (e : ℚ) (s now : Int),
      process_event (runningWith e s) .EvReset now = stoppedWith 0 ∧
      process_event (stoppedWith e) .EvReset now = stoppedWith 0) := by
  refine ⟨fun t0 evs now => ?_, fun e s now => ⟨rfl, rfl⟩⟩
  rcases afterStart_cases t0 evs with ⟨e, h⟩ | ⟨e, s, pre, h, -, -⟩ <;>
    rw [h] <;> exact ⟨rfl, rfl⟩

/-- C2: after `initiate()`, `EvStartstop` at `t1` and `EvReset` at `t2`, the
machine is in `Stopped` with `elapsed_time_` equal to 0.  The exit action of
`Running` does run during the reset and leaves `t2 - t1` in the outgoing
`Active`, but that object is destroyed: the machine is back in the state
`initiate()` produces, so the interval adds nothing to any later reading. -/
theorem C2_reset_while_running_discards_interval (t0 t1 t2 : Int) :
    (exitRunning (afterStart t0 [(.EvStartstop, t1)]) t2).elapsedTime
        = some ((t2 - t1 : Int) : ℚ) ∧
      afterStart t0 [(.EvStartstop, t1), (.EvReset, t2)] = stoppedWith 0 ∧
      (afterStart t0 [(.EvStartstop, t1), (.EvReset, t2)]).elapsedTime = some 0 ∧
      ∀ q : List (Event × Int),
        afterStart t0 ([(.EvStartstop, t1), (.EvReset, t2)] ++ q) = afterStart t0 q := by
  refine ⟨?_, rfl, rfl, fun q => ?_⟩
  · show some ((0 : ℚ) + ((t2 - t1 : Int) : ℚ)) = some ((t2 - t1 : Int) : ℚ)
    rw [zero_add]
  · show run _ _ = run _ _
    rw [run_append]
    rfl

/-- C9: `EvReset` right after `initiate()` changes nothing: the machine state
equals the one `initiate()` alone produces, `Stopped` with `elapsed_time_` 0. -/
theorem C9_reset_on_fresh_machine_is_noop (t0 t : Int) :
    afterStart t0 [(.EvReset, t)] = afterStart t0 [] ∧
      process_event (initiate StopWatch.fresh t0) .EvReset t = initiate StopWatch.fresh t0 ∧
      afterStart t0 [(.EvReset, t)] = stoppedWith 0 ∧
      (afterStart t0 [(.EvReset, t)]).elapsedTime = some 0 :=
  ⟨rfl, rfl, rfl, rfl⟩

/-! ## Toggling -/

/-- C3: in a state reached after `initiate()` whose inner state is `Running`
with `start_time_` `s`, with `elapsed_time_` `e`, dispatching `EvStartstop` at
clock reading `t` yields `Stopped` with `elapsed_time_` `e + (t - s)`; and `s`
is the clock reading of the dispatch that entered this `Running` state (the
last one, an `EvStartstop` taken in `Stopped`). -/
theorem C3_toggle_in_running_banks_interval (t0 : Int) (evs : List (Event × Int))
    (s : Int) (e : ℚ) (t : Int)
    (hr : (afterStart t0 evs).running = some { start_time_ := s })
    (he : (afterStart t0 evs).elapsedTime = some e) :
    process_event (afterStart t0 evs) .EvStartstop t
        = { active := some { elapsed_time_ := e + ((t - s : Int) : ℚ) },
            running := none, stopped := some {} } ∧
      (process_event (afterStart t0 evs) .EvStartstop t).elapsedTime
        = some (e + ((t - s : Int) : ℚ)) ∧
      ∃ pre, evs = pre ++ [(Event.EvStartstop, s)] ∧
        (afterStart t0 pre).stopped.isSome = true ∧
        (afterStart t0 pre).running.isSome = false := by
  rcases afterStart_cases t0 evs with ⟨e1, h⟩ | ⟨e1, s1, pre, h, hpre, hst⟩
  · rw [h] at hr
    exact absurd hr (by simp [stoppedWith])
  · rw [h] at hr he
    have hs : s1 = s := by simpa [runningWith] using hr
    have hE : e1 = e := by simpa [runningWith, StopWatch.elapsedTime, Active.ElapsedTime] using he
    subst hs hE
    rw [h]
    refine ⟨rfl, rfl, pre, hpre, ?_, ?_⟩ <;> rw [hst] <;> rfl

theorem C3_toggle_in_running_banks_interval_witness :
    (afterStart 0 [(.EvStartstop, 5)]).running = some { start_time_ := 5 } ∧
      (afterStart 0 [(.EvStartstop, 5)]).elapsedTime = some 0 ∧
      (process_event (afterStart 0 [(.EvStartstop, 5)]) .EvStartstop 8
          = { active := some { elapsed_time_ := 0 + ((8 - 5 : Int) : ℚ) },
              running := none, stopped := some {} } ∧
        (process_event (afterStart 0 [(.EvStartstop, 5)]) .EvStartstop 8).elapsedTime
          = some (0 + ((8 - 5 : Int) : ℚ)) ∧
        ∃ pre, [(Event.EvStartstop, (5 : Int))] = pre ++ [(Event.EvStartstop, 5)] ∧
          (afterStart 0 pre).stopped.isSome = true ∧
          (afterStart 0 pre).running.isSome = false) :=
  ⟨rfl, rfl, C3_toggle_in_running_banks_interval 0 [(.EvStartstop, 5)] 5 0 8 rfl rfl⟩

/-- C4: in a state reached after `initiate()` whose inner state is `Stopped`,
with `elapsed_time_` `e`, dispatching `EvStartstop` at clock reading `t` yields
`Running` with `start_time_` equal to `t` and `elapsed_time_` still `e`: what
`ElapsedTime()` returns while `Running` is the value banked before, whatever
the reading `t`. -/
theorem C4_toggle_in_stopped_starts_interval (t0 : Int) (evs : List (Event × Int))
    (e : ℚ) (t : Int)
    (hs : (afterStart t0 evs).stopped.isSome = true)
    (he : (afterStart t0 evs).elapsedTime = some e) :
    process_event (afterStart t0 evs) .EvStartstop t
        = { active := some { elapsed_time_ := e },
            running := some { start_time_ := t }, stopped := none } ∧
      (process_event (afterStart t0 evs) .EvStartstop t).elapsedTime
        = (afterStart t0 evs).elapsedTime ∧
      (process_event (afterStart t0 evs) .EvStartstop t).elapsedTime = some e := by
  rcases afterStart_cases t0 evs with ⟨e1, h⟩ | ⟨e1, s1, pre, h, -, -⟩
  · rw [h] at he
    have hE : e1 = e := by simpa [stoppedWith, StopWatch.elapsedTime, Active.ElapsedTime] using he
    subst hE
    rw [h]
    exact ⟨rfl, rfl, rfl⟩
  · rw [h] at hs
    exact absurd hs (by simp [runningWith])

theorem C4_toggle_in_stopped_starts_interval_witness :
    (afterStart 0 [(.EvStartstop, 5), (.EvStartstop, 8)]).stopped.isSome = true ∧
      (afterStart 0 [(.EvStartstop, 5), (.EvStartstop, 8)]).elapsedTime = some 3 ∧
      (process_event (afterStart 0 [(.EvStartstop, 5), (.EvStartstop, 8)]) .EvStartstop 20
          = { active := some { elapsed_time_ := 3 },
              running := some { start_time_ := 20 }, stopped := none } ∧
        (process_event (afterStart 0 [(.EvStartstop, 5), (.EvStartstop, 8)])
            .EvStartstop 20).elapsedTime
          = (afterStart 0 [(.EvStartstop, 5), (.EvStartstop, 8)]).elapsedTime ∧
        (process_event (afterStart 0 [(.EvStartstop, 5), (.EvStartstop, 8)])
            .EvStartstop 20).elapsedTime = some 3) :=
  have h3 : (afterStart 0 [(.EvStartstop, 5), (.EvStartstop, 8)]).elapsedTime = some 3 := by
    show some ((0 : ℚ) + (((8 : Int) - 5 : Int) : ℚ)) = some 3
    norm_num
  ⟨rfl, h3, C4_toggle_in_stopped_starts_interval 0 _ 3 20 rfl h3⟩

theorem intervalSum_zero (rs : List Int) : intervalSum rs 0 = 0 := by
  simp [intervalSum]

theorem intervalSum_cons_cons (a b : Int) (rest : List Int) (k : Nat) :
    intervalSum (a :: b :: rest) (k + 1) = ((b - a : Int) : ℚ) + intervalSum rest k := by
  unfold intervalSum
  rw [Finset.sum_range_succ', add_comm]
  congr 1

theorem toggles_stoppedWith (k : Nat) : ∀ (ts : List Int) (e : ℚ), ts.length = 2 * k →
    toggles (stoppedWith e) ts = stoppedWith (e + intervalSum ts k) := by
  induction k with
  | zero =>
    intro ts e h
    have : ts = [] := List.length_eq_zero.mp (by simpa using h)
    subst this
    rw [intervalSum_zero, add_zero]
    rfl
  | succ k ih =>
    intro ts e h
    match ts, h with
    | a :: b :: rest, h =>
      have hlen : rest.length = 2 * k := by simp at h; omega
      have step : toggles (stoppedWith e) (a :: b :: rest)
          = toggles (stoppedWith (e + ((b - a : Int) : ℚ))) rest := rfl
      rw [step, ih rest _ hlen, intervalSum_cons_cons, add_assoc]
    | [], h => simp at h
    | [_], h => simp at h; omega

theorem toggles_runningWith (k : Nat) : ∀ (ts : List Int) (e : ℚ) (s : Int),
    ts.length = 2 * k →
    ∃ s1, toggles (runningWith e s) ts = runningWith (e + intervalSum (s :: ts) k) s1 := by
  induction k with
  | zero =>
    intro ts e s h
    have : ts = [] := List.length_eq_zero.mp (by simpa using h)
    subst this
    rw [intervalSum_zero, add_zero]
    exact ⟨s, rfl⟩
  | succ k ih =>
    intro ts e s h
    match ts, h with
    | a :: b :: rest, h =>
      have hlen : rest.length = 2 * k := by simp at h; omega
      have step : toggles (runningWith e s) (a :: b :: rest)
          = toggles (runningWith (e + ((a - s : Int) : ℚ)) b) rest := rfl
      obtain ⟨s1, hs1⟩ := ih rest (e + ((a - s : Int) : ℚ)) b hlen
      refine ⟨s1, ?_⟩
      rw [step, hs1, intervalSum_cons_cons, add_assoc]
    | [], h => simp at h
    | [_], h => simp at h; omega

/-- C5: from a state reached after `initiate()` with `elapsed_time_` `e`,
dispatching `EvStartstop` at `2k` clock readings (no `EvReset` in between)
leaves the same inner state active (`Running` stays `Running`, `Stopped` stays
`Stopped`) and yields `elapsed_time_` equal to `e` plus the sum over the `k`
`Running` intervals exited of (exit reading - entry reading); from `Stopped`
with readings `t1..t2k` that is `e + sum (t_2i - t_(2i-1))`. -/
theorem C5_even_toggles_add_interval_sum (t0 : Int) (evs : List (Event × Int))
    (k : Nat) (ts : List Int) (e : ℚ)
    (hlen : ts.length = 2 * k)
    (he : (afterStart t0 evs).elapsedTime = some e) :
    (toggles (afterStart t0 evs) ts).running.isSome = (afterStart t0 evs).running.isSome ∧
      (toggles (afterStart t0 evs) ts).stopped.isSome = (afterStart t0 evs).stopped.isSome ∧
      (toggles (afterStart t0 evs) ts).elapsedTime
        = some (e + intervalSum (intervalReadings (afterStart t0 evs) ts) k) ∧
      ((afterStart t0 evs).stopped.isSome = true →
        (toggles (afterStart t0 evs) ts).elapsedTime
          = some (e + ∑ i ∈ Finset.range k,
              ((ts.getD (2 * i + 1) 0 - ts.getD (2 * i) 0 : Int) : ℚ))) := by
  rcases afterStart_cases t0 evs with ⟨e1, h⟩ | ⟨e1, s1, pre, h, -, -⟩
  · rw [h] at he ⊢
    have hE : e1 = e := by simpa [stoppedWith, StopWatch.elapsedTime, Active.ElapsedTime] using he
    subst hE
    rw [toggles_stoppedWith k ts e1 hlen]
    exact ⟨rfl, rfl, rfl, fun _ => rfl⟩
  · rw [h] at he ⊢
    have hE : e1 = e := by simpa [runningWith, StopWatch.elapsedTime, Active.ElapsedTime] using he
    subst hE
    obtain ⟨s2, hs2⟩ := toggles_runningWith k ts e1 s1 hlen
    rw [hs2]
    exact ⟨rfl, rfl, rfl, fun hc => absurd hc (by simp [runningWith])⟩

theorem C5_even_toggles_add_interval_sum_witness :
    [(5 : Int), 8, 20, 27].length = 2 * 2 ∧
      (afterStart 0 [(.EvStartstop, 1), (.EvStartstop, 3)]).elapsedTime = some 2 ∧
      ((toggles (afterStart 0 [(.EvStartstop, 1), (.EvStartstop, 3)]) [5, 8, 20, 27]).running.isSome
          = (afterStart 0 [(.EvStartstop, 1), (.EvStartstop, 3)]).running.isSome ∧
        (toggles (afterStart 0 [(.EvStartstop, 1), (.EvStartstop, 3)]) [5, 8, 20, 27]).stopped.isSome
          = (afterStart 0 [(.EvStartstop, 1), (.EvStartstop, 3)]).stopped.isSome ∧
        (toggles (afterStart 0 [(.EvStartstop, 1), (.EvStartstop, 3)]) [5, 8, 20, 27]).elapsedTime
          = some (2 + intervalSum (intervalReadings
              (afterStart 0 [(.EvStartstop, 1), (.EvStartstop, 3)]) [5, 8, 20, 27]) 2) ∧
        ((afterStart 0 [(.EvStartstop, 1), (.EvStartstop, 3)]).stopped.isSome = true →
          (toggles (afterStart 0 [(.EvStartstop, 1), (.EvStartstop, 3)]) [5, 8, 20, 27]).elapsedTime
            = some (2 + ∑ i ∈ Finset.range 2,
                ((([5, 8, 20, 27] : List Int).getD (2 * i + 1) 0
                  - ([5, 8, 20, 27] : List Int).getD (2 * i) 0 : Int) : ℚ)))) :=
  have h2 : (afterStart 0 [(.EvStartstop, 1), (.EvStartstop, 3)]).elapsedTime = some 2 := by
    show some ((0 : ℚ) + (((3 : Int) - 1 : Int) : ℚ)) = some 2
    norm_num
  ⟨rfl, h2, C5_even_toggles_add_interval_sum 0 _ 2 [5, 8, 20, 27] 2 rfl h2⟩

/-! ## Invariants of the active configuration -/

/-- C6: after `initiate()` and after each dispatch of any finite sequence of
events and clock readings, the machine is not terminated, `Active` is active,
and exactly one of `Running` and `Stopped` is active. -/
theorem C6_exactly_one_inner_state (t0 : Int) (evs : List (Event × Int)) (n : Nat) :
    (afterStart t0 (evs.take n)).terminated = false ∧
      (afterStart t0 (evs.take n)).active.isSome = true ∧
      ((afterStart t0 (evs.take n)).running.isSome = true ∧
          (afterStart t0 (evs.take n)).stopped.isSome = false ∨
        (afterStart t0 (evs.take n)).running.isSome = false ∧
          (afterStart t0 (evs.take n)).stopped.isSome = true) := by
  rcases afterStart_cases t0 (evs.take n) with ⟨e, h⟩ | ⟨e, s, pre, h, -, -⟩ <;> rw [h]
  · exact ⟨rfl, rfl, Or.inr ⟨rfl, rfl⟩⟩
  · exact ⟨rfl, rfl, Or.inl ⟨rfl, rfl⟩⟩

theorem togglesSinceReset_snoc_reset (xs : List (Event × Int)) (t : Int) :
    togglesSinceReset (xs ++ [(Event.EvReset, t)]) = 0 := by
  simp [togglesSinceReset, sinceLastReset]

theorem togglesSinceReset_snoc_toggle (xs : List (Event × Int)) (t : Int) :
    togglesSinceReset (xs ++ [(Event.EvStartstop, t)]) = togglesSinceReset xs + 1 := by
  simp [togglesSinceReset, sinceLastReset, List.takeWhile_cons]

theorem running_iff_odd_toggles (t0 : Int) (evs : List (Event × Int)) :
    ((afterStart t0 evs).running.isSome = true ↔ togglesSinceReset evs % 2 = 1) := by
  induction evs using List.reverseRecOn with
  | nil => simp [togglesSinceReset, sinceLastReset, afterStart_nil, stoppedWith]
  | append_singleton xs x ih =>
    obtain ⟨ev, t⟩ := x
    rw [afterStart_snoc]
    rcases afterStart_cases t0 xs with ⟨e, h⟩ | ⟨e, s, pre, h, -, -⟩
    · rw [h] at ih ⊢
      cases ev
      · rw [togglesSinceReset_snoc_toggle]
        have h0 : ¬ togglesSinceReset xs % 2 = 1 := fun hc => by
          have := ih.mpr hc
          simp [stoppedWith] at this
        rw [toggle_stoppedWith]
        simp [runningWith]
        omega
      · rw [togglesSinceReset_snoc_reset]
        rw [reset_stoppedWith]
        simp [stoppedWith]
    · rw [h] at ih ⊢
      cases ev
      · rw [togglesSinceReset_snoc_toggle]
        have h1 : togglesSinceReset xs % 2 = 1 := ih.mp (by simp [runningWith])
        rw [toggle_runningWith]
        simp [stoppedWith]
        omega
      · rw [togglesSinceReset_snoc_reset]
        rw [reset_runningWith]
        simp [stoppedWith]

/-- C7: after `initiate()` and any sequence of dispatches, the inner state is
`Running` exactly when the number of `EvStartstop` events dispatched since the
most recent `EvReset` (since `initiate()` if there was none) is odd, and
`Stopped` exactly when it is even; after `n` toggles and no reset the state is
`Running` iff `n` is odd. -/
theorem C7_running_iff_odd_toggles_since_reset (t0 : Int) :
    (∀ evs : List (Event × Int),
      ((afterStart t0 evs).running.isSome = true ↔ togglesSinceReset evs % 2 = 1) ∧
      ((afterStart t0 evs).stopped.isSome = true ↔ togglesSinceReset evs % 2 = 0)) ∧
    (∀ ts : List Int,
      ((toggles (afterStart t0 []) ts).running.isSome = true ↔ ts.length % 2 = 1)) := by
  have hcount : ∀ ts : List Int,
      togglesSinceReset (ts.map fun t => (Event.EvStartstop, t)) = ts.length := by
    intro ts
    induction ts using List.reverseRecOn with
    | nil => rfl
    | append_singleton xs x ih =>
      rw [List.map_append, List.map_singleton, togglesSinceReset_snoc_toggle, ih]
      simp
  refine ⟨fun evs => ⟨running_iff_odd_toggles t0 evs, ?_⟩, fun ts => ?_⟩
  · have hr := running_iff_odd_toggles t0 evs
    rcases afterStart_cases t0 evs with ⟨e, h⟩ | ⟨e, s, pre, h, -, -⟩
    · rw [h] at hr ⊢
      have h0 : ¬ togglesSinceReset evs % 2 = 1 := fun hc => by
        have := hr.mpr hc
        simp [stoppedWith] at this
      simp [stoppedWith]
      omega
    · rw [h] at hr ⊢
      have h1 : togglesSinceReset evs % 2 = 1 := hr.mp (by simp [runningWith])
      simp [runningWith]
      omega
  · have := running_iff_odd_toggles t0 (ts.map fun t => (Event.EvStartstop, t))
    rw [hcount] at this
    exact this

/-! ## Sign and growth of `elapsed_time_` -/

/-- With non-decreasing clock readings, every state reached after `initiate()`
has a non-negative `elapsed_time_`, and in `Running` the `start_time_` is the
reading of the last dispatch. -/
theorem afterStart_cases_nonneg (t0 : Int) (evs : List (Event × Int))
    (hmono : (evs.map Prod.snd).Sorted (· ≤ ·)) :
    (∃ e, 0 ≤ e ∧ afterStart t0 evs = stoppedWith e) ∨
    (∃ e s pre, 0 ≤ e ∧ afterStart t0 evs = runningWith e s ∧
      evs = pre ++ [(Event.EvStartstop, s)]) := by
  induction evs using List.reverseRecOn with
  | nil => exact Or.inl ⟨0, le_refl 0, rfl⟩
  | append_singleton xs x ih =>
    obtain ⟨ev, t⟩ := x
    rw [List.map_append, List.map_singleton] at hmono
    have hxs : (xs.map Prod.snd).Sorted (· ≤ ·) := (List.pairwise_append.mp hmono).1
    have hlast : ∀ y ∈ xs, y.2 ≤ t := fun y hy =>
      (List.pairwise_append.mp hmono).2.2 y.2 (List.mem_map_of_mem Prod.snd hy) t
        (List.mem_singleton_self t)
    rw [afterStart_snoc]
    rcases ih hxs with ⟨e, he, h⟩ | ⟨e, s, pre, he, h, hpre⟩
    · cases ev
      · exact Or.inr ⟨e, t, xs, he, by rw [h]; rfl, rfl⟩
      · exact Or.inl ⟨0, le_refl 0, by rw [h]; rfl⟩
    · cases ev
      · have hst : s ≤ t := hlast (Event.EvStartstop, s) (by rw [hpre]; simp)
        have hd : (0 : ℚ) ≤ ((t - s : Int) : ℚ) := by
          have : (0 : Int) ≤ t - s := by omega
          exact_mod_cast this
        exact Or.inl ⟨e + ((t - s : Int) : ℚ), add_nonneg he hd, by rw [h]; rfl⟩
      · exact Or.inl ⟨0, le_refl 0, by rw [h]; rfl⟩

/-- C10 (as stated, refuted): after `initiate()`, `EvStartstop` at reading 5
and `EvStartstop` at reading 3, `elapsed_time_` is `-2`: it is negative, and
the second `EvStartstop` lowered it from 0. -/
theorem C10_counterexample_clock_steps_back :
    (afterStart 0 [(.EvStartstop, 5)]).elapsedTime = some 0 ∧
      (afterStart 0 [(.EvStartstop, 5), (.EvStartstop, 3)]).elapsedTime = some (-2) ∧
      ¬ ((0 : ℚ) ≤ -2) ∧
      ¬ (∀ (evs : List (Event × Int)), ∃ e,
          (afterStart 0 evs).elapsedTime = some e ∧ 0 ≤ e) := by
  have h2 : (afterStart 0 [(.EvStartstop, 5), (.EvStartstop, 3)]).elapsedTime = some (-2) := by
    show some ((0 : ℚ) + (((3 : Int) - 5 : Int) : ℚ)) = some (-2)
    norm_num
  refine ⟨rfl, h2, by norm_num, fun hall => ?_⟩
  obtain ⟨e, he, hpos⟩ := hall [(.EvStartstop, 5), (.EvStartstop, 3)]
  rw [h2] at he
  have : e = -2 := (Option.some.inj he).symm
  rw [this] at hpos
  norm_num at hpos

/-- C10 (amended): for every sequence of events dispatched after `initiate()`
whose clock readings are non-decreasing, `elapsed_time_` is non-negative in the
state reached, and a further `EvStartstop` dispatched at a reading not earlier
than the previous ones does not make `elapsed_time_` smaller. -/
theorem C10_elapsed_nonneg_and_monotone_under_monotone_clock (t0 : Int)
    (evs : List (Event × Int))
    (hmono : (evs.map Prod.snd).Sorted (· ≤ ·)) :
    ∃ e, (afterStart t0 evs).elapsedTime = some e ∧ 0 ≤ e ∧
      ∀ t : Int, (∀ x ∈ evs, x.2 ≤ t) →
        ∃ e1, (afterStart t0 (evs ++ [(Event.EvStartstop, t)])).elapsedTime = some e1 ∧
          e ≤ e1 ∧ 0 ≤ e1 := by
  rcases afterStart_cases_nonneg t0 evs hmono with ⟨e, he, h⟩ | ⟨e, s, pre, he, h, hpre⟩
  · refine ⟨e, by rw [h]; rfl, he, fun t _ => ⟨e, ?_, le_refl e, he⟩⟩
    rw [afterStart_snoc, h]
    rfl
  · refine ⟨e, by rw [h]; rfl, he, fun t ht => ?_⟩
    have hst : s ≤ t := ht (Event.EvStartstop, s) (by rw [hpre]; simp)
    have hd : (0 : ℚ) ≤ ((t - s : Int) : ℚ) := by
      have : (0 : Int) ≤ t - s := by omega
      exact_mod_cast this
    refine ⟨e + ((t - s : Int) : ℚ), ?_, le_add_of_nonneg_right hd, add_nonneg he hd⟩
    rw [afterStart_snoc, h]
    rfl

theorem C10_elapsed_nonneg_and_monotone_under_monotone_clock_witness :
    (([(Event.EvStartstop, (3 : Int)), (Event.EvStartstop, 5), (Event.EvStartstop, 5)]).map
        Prod.snd).Sorted (· ≤ ·) ∧
      ∃ e, (afterStart 0 [(.EvStartstop, 3), (.EvStartstop, 5), (.EvStartstop, 5)]).elapsedTime
          = some e ∧ 0 ≤ e ∧
        ∀ t : Int,
          (∀ x ∈ [(Event.EvStartstop, (3 : Int)), (Event.EvStartstop, 5), (Event.EvStartstop, 5)],
            x.2 ≤ t) →
          ∃ e1, (afterStart 0 ([(.EvStartstop, 3), (.EvStartstop, 5), (.EvStartstop, 5)]
              ++ [(Event.EvStartstop, t)])).elapsedTime = some e1 ∧ e ≤ e1 ∧ 0 ≤ e1 :=
  have hs : (([(Event.EvStartstop, (3 : Int)), (Event.EvStartstop, 5),
      (Event.EvStartstop, 5)]).map Prod.snd).Sorted (· ≤ ·) := by
    simp [List.Sorted]
  ⟨hs, C10_elapsed_nonneg_and_monotone_under_monotone_clock 0 _ hs⟩

/-! ## Totality of dispatch -/

theorem reset_afterStart (t0 : Int) (evs : List (Event × Int)) (now : Int) :
    process_event (afterStart t0 evs) .EvReset now = stoppedWith 0 := by
  rcases afterStart_cases t0 evs with ⟨e, h⟩ | ⟨e, s, pre, h, -, -⟩ <;> rw [h] <;> rfl

/-- C11: in every state reached after `initiate()`, each of the two events
has a reaction: `EvStartstop` is taken by the active inner state, `EvReset` is
not taken by the inner state and is taken by `Active`; so `process_event`
returns the result of that reaction and never falls to the branch for
unhandled events. -/
theorem C11_dispatch_total_and_handled (t0 : Int) (evs : List (Event × Int))
    (ev : Event) (now : Int) :
    (∃ m1, react (afterStart t0 evs) ev now = some m1 ∧
        process_event (afterStart t0 evs) ev now = m1) ∧
      (innerReact (afterStart t0 evs) .EvStartstop now).isSome = true ∧
      innerReact (afterStart t0 evs) .EvReset now = none ∧
      (Active.react (afterStart t0 evs) .EvReset now).isSome = true ∧
      react (afterStart t0 evs) .EvReset now = Active.react (afterStart t0 evs) .EvReset now := by
  rcases afterStart_cases t0 evs with ⟨e, h⟩ | ⟨e, s, pre, h, -, -⟩ <;> rw [h] <;>
    refine ⟨?_, rfl, rfl, rfl, rfl⟩ <;> cases ev <;> exact ⟨_, rfl, rfl⟩

/-! ## The demo driver -/

/-- C12: for all clock readings, the driver `main` takes the machine through
`Stopped` with elapsed 0, `Running` with `start_time_` `t1`, `Stopped` with
elapsed `t2 - t1`, `Running` with `start_time_` `t3` and elapsed still
`t2 - t1`, and `Stopped` with elapsed 0, and returns exit status 0. -/
theorem C12_main_trace (t0 t1 t2 t3 t4 : Int) :
    main t0 t1 t2 t3 t4 =
      ([{ active := some { elapsed_time_ := 0 }, running := none, stopped := some {} },
        { active := some { elapsed_time_ := 0 }, running := some { start_time_ := t1 },
          stopped := none },
        { active := some { elapsed_time_ := ((t2 - t1 : Int) : ℚ) }, running := none,
          stopped := some {} },
        { active := some { elapsed_time_ := ((t2 - t1 : Int) : ℚ) },
          running := some { start_time_ := t3 }, stopped := none },
        { active := some { elapsed_time_ := 0 }, running := none, stopped := some {} }], 0) ∧
      (main t0 t1 t2 t3 t4).2 = 0 := by
  have h : (0 : ℚ) + ((t2 - t1 : Int) : ℚ) = ((t2 - t1 : Int) : ℚ) := zero_add _
  refine ⟨?_, rfl⟩
  show ([stoppedWith 0, runningWith 0 t1, stoppedWith (0 + ((t2 - t1 : Int) : ℚ)),
      runningWith (0 + ((t2 - t1 : Int) : ℚ)) t3, stoppedWith 0], (0 : Int)) = _
  rw [h]
  rfl

/-! ## Whole-second resolution -/

/-- C14: after `initiate()` and any sequence of events with whole-second
clock readings, `elapsed_time_` is a whole number of seconds. -/
theorem C14_elapsed_is_whole_seconds (t0 : Int) (evs : List (Event × Int)) :
    ∃ n : Int, (afterStart t0 evs).elapsedTime = some (n : ℚ) := by
  induction evs using List.reverseRecOn with
  | nil => exact ⟨0, by rw [afterStart_nil]; simp [stoppedWith, StopWatch.elapsedTime,
      Active.ElapsedTime]⟩
  | append_singleton xs x ih =>
    obtain ⟨ev, t⟩ := x
    obtain ⟨n, hn⟩ := ih
    rw [afterStart_snoc]
    rcases afterStart_cases t0 xs with ⟨e, h⟩ | ⟨e, s, pre, h, -, -⟩
    · rw [h] at hn ⊢
      have hE : e = (n : ℚ) := by
        simpa [stoppedWith, StopWatch.elapsedTime, Active.ElapsedTime] using hn
      cases ev
      · exact ⟨n, by rw [toggle_stoppedWith, hE]; rfl⟩
      · exact ⟨0, by rw [reset_stoppedWith]; simp [stoppedWith, StopWatch.elapsedTime,
          Active.ElapsedTime]⟩
    · rw [h] at hn ⊢
      have hE : e = (n : ℚ) := by
        simpa [runningWith, StopWatch.elapsedTime, Active.ElapsedTime] using hn
      cases ev
      · refine ⟨n + (t - s), ?_⟩
        rw [toggle_runningWith, hE]
        simp [stoppedWith, StopWatch.elapsedTime, Active.ElapsedTime]
      · exact ⟨0, by rw [reset_runningWith]; simp [stoppedWith, StopWatch.elapsedTime,
          Active.ElapsedTime]⟩

/-! ## Reset erases history -/

/-- C17: for all event sequences `p` and `q` with their clock readings, the
machine after `initiate()`, `p`, `EvReset` and `q` is in the same state as after
`initiate()` and `q` alone: inner state, `elapsed_time_` and `start_time_` agree,
and so does `ElapsedTime()`. -/
theorem C17_reset_erases_history (t0 : Int) (p q : List (Event × Int)) (t : Int) :
    afterStart t0 (p ++ (Event.EvReset, t) :: q) = afterStart t0 q ∧
      (afterStart t0 (p ++ (Event.EvReset, t) :: q)).elapsedTime
        = (afterStart t0 q).elapsedTime := by
  have h : afterStart t0 (p ++ (Event.EvReset, t) :: q) = afterStart t0 q := by
    have hsplit : p ++ (Event.EvReset, t) :: q = (p ++ [(Event.EvReset, t)]) ++ q := by simp
    have hp : run (initiate StopWatch.fresh t0) (p ++ [(Event.EvReset, t)]) = stoppedWith 0 := by
      rw [run_snoc]
      exact reset_afterStart t0 p t
    rw [hsplit]
    show run _ _ = run _ _
    rw [run_append, hp]
    rfl
  exact ⟨h, by rw [h]⟩

/-! ## The hierarchical machine against the flat table -/

theorem process_event_toStopWatch (w : FlatWatch) (ev : Event) (now : Int) :
    process_event w.toStopWatch ev now = (w.dispatch ev now).toStopWatch := by
  obtain ⟨st, e⟩ := w
  cases st <;> cases ev <;> rfl

theorem run_toStopWatch (evs : List (Event × Int)) : ∀ w : FlatWatch,
    run w.toStopWatch evs = (w.run evs).toStopWatch := by
  induction evs with
  | nil => intro w; rfl
  | cons x xs ih =>
    intro w
    rw [run_cons, process_event_toStopWatch, ih]
    rfl

/-- C15: the hierarchical machine as coded (on `EvReset` the inner state is
exited first, with the exit action of `Running` run against the old `Active`,
then `Active` is destroyed and constructed again and `Stopped` entered) and the
flat table (where `EvReset` maps either tag to `Stopped` with `elapsed_time` 0
and runs no exit action) agree after every dispatch of every event sequence:
same inner state, same start reading, same `ElapsedTime()`. -/
theorem C15_hierarchical_refines_flat_table (t0 : Int) (evs : List (Event × Int)) :
    afterStart t0 evs = (FlatWatch.start.run evs).toStopWatch ∧
      (afterStart t0 evs).running.isSome = (FlatWatch.start.run evs).isRunning ∧
      (afterStart t0 evs).stopped.isSome = !(FlatWatch.start.run evs).isRunning ∧
      (afterStart t0 evs).elapsedTime = some (FlatWatch.start.run evs).elapsed_time := by
  have h : afterStart t0 evs = (FlatWatch.start.run evs).toStopWatch :=
    run_toStopWatch evs FlatWatch.start
  refine ⟨h, ?_⟩
  rw [h]
  generalize FlatWatch.start.run evs = w
  obtain ⟨st, e⟩ := w
  cases st <;> exact ⟨rfl, rfl, rfl⟩

/-! ## Whole-second clock against real time -/

/-- C13: when the clock reading at a real instant `r` is the whole second
`⌊r⌋`, then for real instants `r1 ≤ r2` the sequence `initiate()`,
`EvStartstop` at `r1`, `EvStartstop` at `r2` ends in `Stopped` with
`elapsed_time_` equal to `⌊r2⌋ - ⌊r1⌋`, which is non-negative and differs from
the real gap `r2 - r1` by less than one second; for a gap of exactly 2 seconds
it is 2, hence within 1 of 2. -/
theorem C13_whole_second_clock_error_below_one (t0 : Int) (r1 r2 : ℝ) (h : r1 ≤ r2) :
    afterStart t0 [(.EvStartstop, ⌊r1⌋), (.EvStartstop, ⌊r2⌋)]
        = stoppedWith ((⌊r2⌋ - ⌊r1⌋ : Int) : ℚ) ∧
      ∃ e : ℚ,
        (afterStart t0 [(.EvStartstop, ⌊r1⌋), (.EvStartstop, ⌊r2⌋)]).elapsedTime = some e ∧
        e = ((⌊r2⌋ - ⌊r1⌋ : Int) : ℚ) ∧
        0 ≤ e ∧
        |(e : ℝ) - (r2 - r1)| < 1 ∧
        (r2 - r1 = 2 → e = 2 ∧ |(e : ℝ) - 2| ≤ 1) := by
  have hstate : afterStart t0 [(.EvStartstop, ⌊r1⌋), (.EvStartstop, ⌊r2⌋)]
      = stoppedWith ((⌊r2⌋ - ⌊r1⌋ : Int) : ℚ) := by
    show stoppedWith ((0 : ℚ) + ((⌊r2⌋ - ⌊r1⌋ : Int) : ℚ)) = _
    rw [zero_add]
  refine ⟨hstate, ((⌊r2⌋ - ⌊r1⌋ : Int) : ℚ), by rw [hstate]; rfl, rfl, ?_, ?_, ?_⟩
  · have hfl : ⌊r1⌋ ≤ ⌊r2⌋ := Int.floor_mono h
    have : (0 : Int) ≤ ⌊r2⌋ - ⌊r1⌋ := by omega
    exact_mod_cast this
  · have a1 := Int.floor_le r1
    have a2 := Int.lt_floor_add_one r1
    have b1 := Int.floor_le r2
    have b2 := Int.lt_floor_add_one r2
    push_cast
    rw [abs_lt]
    constructor <;> linarith
  · intro hgap
    have hr2 : r2 = r1 + ((2 : Int) : ℝ) := by push_cast; linarith
    have hfl : ⌊r2⌋ = ⌊r1⌋ + 2 := by rw [hr2, Int.floor_add_int]
    have hd : ⌊r2⌋ - ⌊r1⌋ = 2 := by omega
    rw [hd]
    norm_num

theorem C13_whole_second_clock_error_below_one_witness :
    ((1 / 2 : ℝ) ≤ 5 / 2) ∧
      (afterStart 0 [(.EvStartstop, ⌊(1 / 2 : ℝ)⌋), (.EvStartstop, ⌊(5 / 2 : ℝ)⌋)]
          = stoppedWith ((⌊(5 / 2 : ℝ)⌋ - ⌊(1 / 2 : ℝ)⌋ : Int) : ℚ) ∧
        ∃ e : ℚ,
          (afterStart 0 [(.EvStartstop, ⌊(1 / 2 : ℝ)⌋),
              (.EvStartstop, ⌊(5 / 2 : ℝ)⌋)]).elapsedTime = some e ∧
          e = ((⌊(5 / 2 : ℝ)⌋ - ⌊(1 / 2 : ℝ)⌋ : Int) : ℚ) ∧
          0 ≤ e ∧
          |(e : ℝ) - ((5 / 2 : ℝ) - 1 / 2)| < 1 ∧
          ((5 / 2 : ℝ) - 1 / 2 = 2 → e = 2 ∧ |(e : ℝ) - 2| ≤ 1)) :=
  have h : (1 / 2 : ℝ) ≤ 5 / 2 := by norm_num
  ⟨h, C13_whole_second_clock_error_below_one 0 (1 / 2) (5 / 2) h⟩

/-! ## Sign of `elapsed_time_` and the order of clock readings -/

/-- When the readings of `evs` followed by an `EvStartstop` at `t` are
non-decreasing, that `EvStartstop` does not lower `elapsed_time_`, which is
non-negative before it. -/
theorem toggle_nondecreasing (t0 : Int) (evs : List (Event × Int)) (t : Int)
    (hmono : ((evs ++ [(Event.EvStartstop, t)]).map Prod.snd).Sorted (· ≤ ·)) :
    ∃ e e1, (afterStart t0 evs).elapsedTime = some e ∧
      (afterStart t0 (evs ++ [(Event.EvStartstop, t)])).elapsedTime = some e1 ∧
      0 ≤ e ∧ e ≤ e1 := by
  rw [List.map_append, List.map_singleton] at hmono
  have hxs : (evs.map Prod.snd).Sorted (· ≤ ·) := (List.pairwise_append.mp hmono).1
  have hlast : ∀ y ∈ evs, y.2 ≤ t := fun y hy =>
    (List.pairwise_append.mp hmono).2.2 y.2 (List.mem_map_of_mem Prod.snd hy) t
      (List.mem_singleton_self t)
  rw [afterStart_snoc]
  rcases afterStart_cases_nonneg t0 evs hxs with ⟨e, he, h⟩ | ⟨e, s, pre, he, h, hpre⟩
  · exact ⟨e, e, by rw [h]; rfl, by rw [h]; rfl, he, le_refl e⟩
  · have hst : s ≤ t := hlast (Event.EvStartstop, s) (by rw [hpre]; simp)
    have hd : (0 : ℚ) ≤ ((t - s : Int) : ℚ) := by
      have : (0 : Int) ≤ t - s := by omega
      exact_mod_cast this
    exact ⟨e, e + ((t - s : Int) : ℚ), by rw [h]; rfl, by rw [h]; rfl, he,
      le_add_of_nonneg_right hd⟩

/-- C16: if the clock readings of successive dispatches are non-decreasing,
`elapsed_time_` is non-negative after every dispatch following `initiate()` and
no `EvStartstop` dispatch lowers it; without that, a `Running` interval entered
at `t1` and left by `EvStartstop` at an earlier reading `t2 < t1` makes
`elapsed_time_` negative. -/
theorem C16_elapsed_sign_follows_clock_order :
    (∀ (t0 : Int) (evs : List (Event × Int)), (evs.map Prod.snd).Sorted (· ≤ ·) →
      ∀ n : Nat, ∃ e, (afterStart t0 (evs.take n)).elapsedTime = some e ∧ 0 ≤ e ∧
        ∀ t : Int, evs[n]? = some (Event.EvStartstop, t) →
          ∃ e1, (afterStart t0 (evs.take (n + 1))).elapsedTime = some e1 ∧ e ≤ e1) ∧
    (∀ (t0 t1 t2 : Int), t2 < t1 →
      ∃ e, (afterStart t0 [(.EvStartstop, t1), (.EvStartstop, t2)]).elapsedTime = some e ∧
        e = ((t2 - t1 : Int) : ℚ) ∧ e < 0) := by
  constructor
  · intro t0 evs hmono n
    have hsub : ∀ k : Nat, ((evs.take k).map Prod.snd).Sorted (· ≤ ·) := fun k =>
      List.Pairwise.sublist ((List.take_sublist k evs).map Prod.snd) hmono
    rcases afterStart_cases_nonneg t0 (evs.take n) (hsub n) with
      ⟨e, he, h⟩ | ⟨e, s, pre, he, h, -⟩
    all_goals
      refine ⟨e, by rw [h]; rfl, he, fun t ht => ?_⟩
      have htake : evs.take (n + 1) = evs.take n ++ [(Event.EvStartstop, t)] := by
        rw [List.take_succ, ht]; rfl
      have hm := hsub (n + 1)
      rw [htake] at hm ⊢
      obtain ⟨a, a1, ha, ha1, -, hle⟩ := toggle_nondecreasing t0 (evs.take n) t hm
      rw [h] at ha
      have hae : e = a := Option.some.inj ha
      exact ⟨a1, ha1, by rw [hae]; exact hle⟩
  · intro t0 t1 t2 hlt
    refine ⟨((t2 - t1 : Int) : ℚ), ?_, rfl, ?_⟩
    · show some ((0 : ℚ) + ((t2 - t1 : Int) : ℚ)) = _
      rw [zero_add]
    · have : t2 - t1 < 0 := by omega
      exact_mod_cast this

theorem C16_elapsed_sign_follows_clock_order_witness :
    (([(Event.EvStartstop, (3 : Int)), (Event.EvReset, 4), (Event.EvStartstop, 4),
        (Event.EvStartstop, 9)]).map Prod.snd).Sorted (· ≤ ·) ∧
      (∃ e, (afterStart 0 (([(Event.EvStartstop, (3 : Int)), (Event.EvReset, 4),
            (Event.EvStartstop, 4), (Event.EvStartstop, 9)]).take 3)).elapsedTime = some e ∧
          0 ≤ e ∧
          ∀ t : Int, ([(Event.EvStartstop, (3 : Int)), (Event.EvReset, 4),
              (Event.EvStartstop, 4), (Event.EvStartstop, 9)])[3]? = some (Event.EvStartstop, t) →
            ∃ e1, (afterStart 0 (([(Event.EvStartstop, (3 : Int)), (Event.EvReset, 4),
                (Event.EvStartstop, 4), (Event.EvStartstop, 9)]).take (3 + 1))).elapsedTime
                  = some e1 ∧ e ≤ e1) ∧
      ((3 : Int) < 5) ∧
      (∃ e, (afterStart 0 [(.EvStartstop, 5), (.EvStartstop, 3)]).elapsedTime = some e ∧
        e = (((3 : Int) - 5 : Int) : ℚ) ∧ e < 0) :=
  have hs : (([(Event.EvStartstop, (3 : Int)), (Event.EvReset, 4), (Event.EvStartstop, 4),
      (Event.EvStartstop, 9)]).map Prod.snd).Sorted (· ≤ ·) := by
    simp [List.Sorted]
  have hlt : (3 : Int) < 5 := by decide
  ⟨hs, C16_elapsed_sign_follows_clock_order.1 0 _ hs 3, hlt,
    C16_elapsed_sign_follows_clock_order.2 0 5 3 hlt⟩

end StopWatchSM
